import Mathlib

/-!
Verification of the resumable batch download pipeline
(src/crawl/nu/crawl_main.py, src/crawl/thaijo/fetch_pdf_urls.py,
src/utils/logger.py) against its natural-language specification.

The Python code is shallowly embedded: pure helpers (the markdown link
regex, the Google Drive URL rewriter, the JSON result store) become Lean
functions over lists of characters and association lists; the network is
an explicit trace of per-attempt observations; time.sleep amounts are
collected into a list of rational delays; the filesystem of the download
directory is a list of (file, size) pairs.
-/

namespace Spec2Proof

/-! ## Character-list helpers (Python str operations) -/

/-- Whitespace characters recognised by Python's str.strip and the regex
class \s (ASCII portion; the inputs in this repository are matched on
these characters only). -/
def isSpaceCh (c : Char) : Bool :=
  c = ' ' || c = '\t' || c = '\n' || c = '\r' || c = '\x0b' || c = '\x0c'

/-- leadsWith pat l: l starts with the character sequence pat. -/
def leadsWith : List Char → List Char → Bool
  | [], _ => true
  | _ :: _, [] => false
  | p :: ps, c :: cs => (p = c) && leadsWith ps cs

/-- occursIn pat l: pat occurs contiguously somewhere inside l
(Python `pat in s`). -/
def occursIn (pat : List Char) : List Char → Bool
  | [] => pat.isEmpty
  | c :: cs => leadsWith pat (c :: cs) || occursIn pat cs

/-- breakAt stop l: split l at the first occurrence of the character
stop, dropping it; none when stop does not occur. -/
def breakAt (stop : Char) : List Char → Option (List Char × List Char)
  | [] => none
  | c :: cs =>
    if c = stop then some ([], cs)
    else
      match breakAt stop cs with
      | some (a, b) => some (c :: a, b)
      | none => none

/-- stripChars: Python str.strip() — remove leading and trailing
whitespace. -/
def stripChars (l : List Char) : List Char :=
  ((l.dropWhile isSpaceCh).reverse.dropWhile isSpaceCh).reverse

/-- afterLastSlash: os.path.basename for the forward-slash paths this
code produces — the segment after the last '/' (the whole string when
no '/' occurs). -/
def afterLastSlash : List Char → List Char
  | [] => []
  | c :: cs => if '/' ∈ cs then afterLastSlash cs else if c = '/' then cs else c :: cs

/-- basename of a path string, as used on downloaded file paths. -/
def basename (p : String) : String :=
  String.mk (afterLastSlash p.data)

/-! ## Result store (Python dict with insertion order, JSON-serialised)

Python dicts keep insertion order and update values in place; json.dump
writes the whole mapping.  The store is modelled as an association list
with exactly those semantics. -/

/-- lookupKey m k: value stored at key k (Python d[k] / d.get(k)). -/
def lookupKey {V : Type} (m : List (String × V)) (k : String) : Option V :=
  match m with
  | [] => none
  | kv :: rest => if kv.1 = k then some kv.2 else lookupKey rest k

/-- containsKey m k: Python `k in d`. -/
def containsKey {V : Type} (m : List (String × V)) (k : String) : Bool :=
  (lookupKey m k).isSome

/-- upsert m k v: Python `d[k] = v` — replace in place if the key is
present, otherwise append at the end. -/
def upsert {V : Type} (m : List (String × V)) (k : String) (v : V) : List (String × V) :=
  match m with
  | [] => [(k, v)]
  | kv :: rest => if kv.1 = k then (k, v) :: rest else kv :: upsert rest k v

theorem lookupKey_upsert_self {V : Type} (m : List (String × V)) (k : String) (v : V) :
    lookupKey (upsert m k v) k = some v := by
  induction m with
  | nil => simp [upsert, lookupKey]
  | cons kv rest ih =>
    by_cases h : kv.1 = k
    · simp [upsert, h, lookupKey]
    · simp [upsert, h, lookupKey, ih]

theorem lookupKey_upsert_other {V : Type} (m : List (String × V)) (k k' : String) (v : V)
    (h : k' ≠ k) : lookupKey (upsert m k v) k' = lookupKey m k' := by
  have hne : ¬ k = k' := fun h2 => h h2.symm
  induction m with
  | nil => simp [upsert, lookupKey, hne]
  | cons kv rest ih =>
    by_cases hk : kv.1 = k
    · subst hk
      simp [upsert, lookupKey, hne]
    · simp only [upsert, hk, if_false, lookupKey]
      by_cases hk2 : kv.1 = k'
      · simp [hk2]
      · simp [hk2, ih]

theorem containsKey_upsert_self {V : Type} (m : List (String × V)) (k : String) (v : V) :
    containsKey (upsert m k v) k = true := by
  simp [containsKey, lookupKey_upsert_self]

theorem containsKey_upsert_mono {V : Type} (m : List (String × V)) (k k' : String) (v : V)
    (h : containsKey m k' = true) : containsKey (upsert m k v) k' = true := by
  by_cases hk : k' = k
  · subst hk; exact containsKey_upsert_self m k' v
  · simpa [containsKey, lookupKey_upsert_other m k k' v hk] using h

/-! ## load_existing_results (both crawl_main.py and fetch_pdf_urls.py)

Source:
    def load_existing_results():
        if os.path.exists(PATH):
            with open(PATH, ...) as f:
                return json.load(f)
        return {}

The filesystem is modelled by the optional content of the backing file;
json.load is the parameter parse (an external library call): it either
returns a parsed mapping or raises, and the source installs no handler,
so a raise propagates. -/

def load_existing_results (M : Type) (parse : String → Except String M)
    (emptyMap : M) (file : Option String) : Except String M :=
  match file with
  | some s => parse s
  | none => Except.ok emptyMap

/-! ## extract_pdf_links_with_label_check (crawl/nu/crawl_main.py)

Source regex, applied with re.findall (leftmost, non-overlapping):

    \*?\s*\[([^\]]*\.pdf[^\]]*)\]\((https?://[^\s\)]*\.pdf)[^\)]*\)

The pattern is deterministic enough to transcribe directly: the label
group is everything up to the first ']' and must contain ".pdf"; the url
group is the longest run of non-space non-')' characters that starts
with http:// or https:// and ends with ".pdf" (backtracking drops any
trailing characters such as a query string); the match then extends over
arbitrary non-')' characters up to the first ')'. -/

structure Candidate where
  text : String
  download_url : String
deriving DecidableEq, Repr

/-- pdfChars: the literal ".pdf" looked for by both regex groups. -/
def pdfChars : List Char := ['.', 'p', 'd', 'f']

/-- urlChar: characters admitted by the regex class [^\s\)]. -/
def urlChar (c : Char) : Bool := !isSpaceCh c && c ≠ ')'

/-- dropScheme l: match the mandatory https?:// at the start of the url
group, returning the scheme literal and the remainder. -/
def dropScheme (l : List Char) : Option (List Char × List Char) :=
  if leadsWith "https://".data l then some ("https://".data, l.drop 8)
  else if leadsWith "http://".data l then some ("http://".data, l.drop 7)
  else none

/-- lastPdfEnd l: the longest prefix of l that ends with ".pdf" (the
greedy [^\s\)]* backtracks to the last possible ".pdf"). -/
def lastPdfEnd : List Char → Option (List Char)
  | [] => none
  | c :: cs =>
    match lastPdfEnd cs with
    | some r => some (c :: r)
    | none => if leadsWith pdfChars (c :: cs) then some pdfChars else none

/-- urlFromRun r: the url capture group matched against the run r of
non-space non-')' characters following the opening parenthesis. -/
def urlFromRun (r : List Char) : Option (List Char) :=
  match dropScheme r with
  | some (sch, t) =>
    match lastPdfEnd t with
    | some u => some (sch ++ u)
    | none => none
  | none => none

/-- matchPdfLinkAt l: attempt the whole regex anchored at the head of l
(modulo the optional leading "*" and whitespace).  On success return the
label capture, the url capture and the remainder of the input after the
closing parenthesis. -/
def matchPdfLinkAt (l : List Char) : Option (List Char × List Char × List Char) :=
  let l1 := match l with
    | '*' :: rest => rest
    | _ => l
  let l2 := l1.dropWhile isSpaceCh
  match l2 with
  | '[' :: r0 =>
    match breakAt ']' r0 with
    | some (label, r1) =>
      if occursIn pdfChars label then
        match r1 with
        | '(' :: r2 =>
          match urlFromRun (r2.takeWhile urlChar) with
          | some url =>
            match breakAt ')' r2 with
            | some (_, rest) => some (label, url, rest)
            | none => none
          | none => none
        | _ => none
      else none
    | none => none
  | _ => none

/-- scanPdfLinks: re.findall — scan every start position left to right,
emitting matches and resuming after each match's closing parenthesis.
The fuel argument only bounds the recursion; extract_... supplies enough
for the whole input. -/
def scanPdfLinks : Nat → List Char → List Candidate
  | 0, _ => []
  | _ + 1, [] => []
  | fuel + 1, c :: cs =>
    match matchPdfLinkAt (c :: cs) with
    | some (label, url, rest) =>
      ⟨String.mk (stripChars label), String.mk url⟩ :: scanPdfLinks fuel rest
    | none => scanPdfLinks fuel cs

/-- extract_pdf_links_with_label_check, the nu markdown-link-scan
resolver: each match yields {text: label.strip(), download_url: url}. -/
def extract_pdf_links_with_label_check (markdown_content : String) : List Candidate :=
  scanPdfLinks (markdown_content.data.length + 1) markdown_content.data

/-- specMarkdownPdfScan follows the words of the specification claim,
for comparison with the implementation: return exactly the [label](url)
occurrences (label up to the first ']', url up to the first ')') in
which the label contains the case-sensitive substring ".pdf" and the url
is an http(s) URL ending in ".pdf". -/
def specMarkdownPdfScan : Nat → List Char → List Candidate
  | 0, _ => []
  | _ + 1, [] => []
  | fuel + 1, c :: cs =>
    if c = '[' then
      match breakAt ']' cs with
      | some (label, r1) =>
        match r1 with
        | '(' :: r2 =>
          match breakAt ')' r2 with
          | some (url, rest) =>
            if occursIn pdfChars label
                && (leadsWith "http://".data url || leadsWith "https://".data url)
                && leadsWith pdfChars.reverse url.reverse then
              ⟨String.mk (stripChars label), String.mk url⟩ :: specMarkdownPdfScan fuel rest
            else specMarkdownPdfScan fuel cs
          | none => specMarkdownPdfScan fuel cs
        | _ => specMarkdownPdfScan fuel cs
      | none => specMarkdownPdfScan fuel cs
    else specMarkdownPdfScan fuel cs

/-- specMarkdownPdfOccurrences: entry point of the spec-side scan. -/
def specMarkdownPdfOccurrences (markdown_content : String) : List Candidate :=
  specMarkdownPdfScan (markdown_content.data.length + 1) markdown_content.data

/-! ## download_pdf_with_retries (two variants)

Each loop iteration performs one GET; what that GET observes is one
Attempt value of the trace handed to the model:
  - resp s size ok: an HTTP response with status s; for a 200, size is
    the number of body bytes written and ok records whether the chunked
    body transfer ran to completion (ok = false: the transport raised
    mid-stream, leaving the partially written file — caught by the
    generic handlers, which sleep and retry);
  - netErr: requests raised before anything was written (Timeout,
    ConnectionError, RequestException and the catch-all Exception arm
    all sleep 2^attempt + uniform(1,3) and retry, so one constructor
    covers them).
Filenames (URL basename plus timestamp) are abstracted to the attempt
index; the claims under study depend only on which files exist and their
sizes.  Sleeps are collected as rationals; j429 and jOther are the
sampled uniform(1,5) and uniform(1,3) jitters per attempt index. -/

inductive Attempt where
  | resp (status : Nat) (size : Nat) (ok : Bool)
  | netErr
deriving DecidableEq, Repr

structure FetchRun where
  result : Option Nat
  attempts : Nat
  sleeps : List ℚ
  files : List (Nat × Nat)
deriving DecidableEq, Repr

/-- retryCons s r: record a backoff sleep of s seconds in front of the
rest of the run r (time.sleep(wait_time) followed by the next loop
iteration). -/
def retryCons (s : ℚ) (r : FetchRun) : FetchRun :=
  ⟨r.result, r.attempts, s :: r.sleeps, r.files⟩

@[simp] theorem retryCons_result (s : ℚ) (r : FetchRun) : (retryCons s r).result = r.result := rfl

@[simp] theorem retryCons_attempts (s : ℚ) (r : FetchRun) : (retryCons s r).attempts = r.attempts := rfl

@[simp] theorem retryCons_sleeps (s : ℚ) (r : FetchRun) : (retryCons s r).sleeps = s :: r.sleeps := rfl

@[simp] theorem retryCons_files (s : ℚ) (r : FetchRun) : (retryCons s r).files = r.files := rfl

namespace Nu

/-- nu fetch loop body (crawl/nu/crawl_main.py lines 71-180): 200 →
write file, verify size > 0, delete the empty file and retry otherwise
(no sleep on that path); 429 → sleep 2^attempt + j429 and retry;
403/404 → return None at once; ≥500 and any other status → sleep
2^attempt + jOther and retry; transport errors → sleep and retry.
After the loop: return None. -/
def fetchAux (j429 jOther : Nat → ℚ) : Nat → List Attempt → List (Nat × Nat) → FetchRun
  | i, [], files => ⟨none, i, [], files⟩
  | i, .resp s size ok :: rest, files =>
    if s = 200 then
      if ok then
        if size > 0 then ⟨some i, i + 1, [], files ++ [(i, size)]⟩
        else fetchAux j429 jOther (i + 1) rest files
      else retryCons (2 ^ i + jOther i) (fetchAux j429 jOther (i + 1) rest (files ++ [(i, size)]))
    else if s = 429 then
      retryCons (2 ^ i + j429 i) (fetchAux j429 jOther (i + 1) rest files)
    else if s = 403 ∨ s = 404 then ⟨none, i + 1, [], files⟩
    else retryCons (2 ^ i + jOther i) (fetchAux j429 jOther (i + 1) rest files)
  | i, .netErr :: rest, files =>
    retryCons (2 ^ i + jOther i) (fetchAux j429 jOther (i + 1) rest files)

/-- download_pdf_with_retries of crawl/nu/crawl_main.py: for attempt in
range(max_retries), starting with an empty download state.  All
exceptions are caught inside the loop, so the model is a total function
returning Option — exhaustion yields result = none, never a raise. -/
def download_pdf_with_retries (j429 jOther : Nat → ℚ) (max_retries : Nat)
    (trace : List Attempt) : FetchRun :=
  fetchAux j429 jOther 0 (trace.take max_retries) []

end Nu

namespace Thaijo

/-- thaijo fetch loop body (crawl/thaijo/fetch_pdf_urls.py lines
95-133): 200 → write the body and return the path with no size
verification at all; 429 → sleep 2^attempt + j429 and retry; any other
status → return None at once; an exception (including one raised while
streaming a 200, after part of the file was written) → sleep 2^attempt +
jOther and retry.  Falling off the loop returns None. -/
def fetchAux (j429 jOther : Nat → ℚ) : Nat → List Attempt → List (Nat × Nat) → FetchRun
  | i, [], files => ⟨none, i, [], files⟩
  | i, .resp s size ok :: rest, files =>
    if s = 200 then
      if ok then ⟨some i, i + 1, [], files ++ [(i, size)]⟩
      else retryCons (2 ^ i + jOther i) (fetchAux j429 jOther (i + 1) rest (files ++ [(i, size)]))
    else if s = 429 then
      retryCons (2 ^ i + j429 i) (fetchAux j429 jOther (i + 1) rest files)
    else ⟨none, i + 1, [], files⟩
  | i, .netErr :: rest, files =>
    retryCons (2 ^ i + jOther i) (fetchAux j429 jOther (i + 1) rest files)

/-- download_pdf_with_retries of crawl/thaijo/fetch_pdf_urls.py. -/
def download_pdf_with_retries (j429 jOther : Nat → ℚ) (max_retries : Nat)
    (trace : List Attempt) : FetchRun :=
  fetchAux j429 jOther 0 (trace.take max_retries) []

end Thaijo

/-- retryableStatus s: the statuses the nu loop retries — everything
except the accepting 200 and the short-circuiting 403/404 (429, 5xx and
unexpected codes all loop). -/
def retryableStatus (s : Nat) : Bool := s ≠ 200 && s ≠ 403 && s ≠ 404

/-- retryableAttempt a: the attempt observations the retry claim ranges
over — HTTP 429, 5xx, other unexpected statuses, and transport errors. -/
def retryableAttempt : Attempt → Bool
  | .resp s _ _ => retryableStatus s
  | .netErr => true

/-- cleanAttempt a: no transport error interrupted the body transfer of
a 200 response (other statuses write nothing). -/
def cleanAttempt : Attempt → Bool
  | .resp s _ ok => s ≠ 200 || ok
  | .netErr => true

/-! ## get_download_url_from_google_drive (crawl/thaijo/fetch_pdf_urls.py)

Source:
    match = re.search(r'/d/([a-zA-Z0-9_-]+)', url) or re.search(r'id=([a-zA-Z0-9_-]+)', url)
    if not match: return None
    return f"https://drive.google.com/uc?export=download&id=" + file_id
-/

/-- isIdChar: the regex class [a-zA-Z0-9_-]. -/
def isIdChar (c : Char) : Bool := c.isAlpha || c.isDigit || c = '_' || c = '-'

/-- searchIdAfter pat l: re.search of pat followed by one-or-more id
characters — leftmost occurrence, maximal (greedy) id group. -/
def searchIdAfter (pat : List Char) : List Char → Option (List Char)
  | [] => none
  | c :: cs =>
    if leadsWith pat (c :: cs) then
      match ((c :: cs).drop pat.length).takeWhile isIdChar with
      | [] => searchIdAfter pat cs
      | g :: gs => some (g :: gs)
    else searchIdAfter pat cs

/-- gdBase: the direct-download prefix built by the source. -/
def gdBase : String := "https://drive.google.com/uc?export=download&id="

/-- get_download_url_from_google_drive: extract a file id from the
/d/<id> pattern, falling back to id=<id>, and build the direct url;
None when neither pattern matches (no raise — the function is total). -/
def get_download_url_from_google_drive (url : String) : Option String :=
  match searchIdAfter "/d/".data url.data with
  | some g => some (gdBase ++ String.mk g)
  | none =>
    match searchIdAfter "id=".data url.data with
    | some g => some (gdBase ++ String.mk g)
    | none => none

/-! ## download_pdf_from_google_drive (crawl/thaijo/fetch_pdf_urls.py)

Each session.get consumes the next response of the trace.  A response
carries its status, whether a Content-Disposition header is present, and
its cookie jar in iteration order.  The model records every requested
url.  Sleeps and the timestamped filename are not needed by the claims;
the saved path is abstracted to the marker below. -/

structure DResp where
  status : Nat
  hasCD : Bool
  cookies : List (String × String)
deriving DecidableEq, Repr

structure DriveRun where
  result : Option String
  requests : List String
deriving DecidableEq, Repr

/-- cookieToken cs: scan response.cookies.items() in order for the first
key starting with "download_warning". -/
def cookieToken (cs : List (String × String)) : Option String :=
  match cs with
  | [] => none
  | kv :: rest =>
    if leadsWith "download_warning".data kv.1.data then some kv.2 else cookieToken rest

/-- gdSavedPath url: stand-in for the written file path (the source
names it from the id after the last "id=" plus a timestamp). -/
def gdSavedPath (url : String) : String := "gdrive_saved_" ++ url

/-- driveAux: the attempt loop of download_pdf_from_google_drive.  Per
attempt: GET the url; if Content-Disposition is absent, look for a
download_warning cookie — with a token, re-issue the GET at
url&confirm=<token> and classify that response instead; without one,
return None immediately.  Then: 429 → sleep and retry; any non-200 →
sleep and retry; 200 → write the body and return the path. -/
def driveAux (url : String) : List DResp → List String → DriveRun
  | [], reqs => ⟨none, reqs⟩
  | r :: rest, reqs =>
    let reqs1 := reqs ++ [url]
    if r.hasCD then
      if r.status = 200 then ⟨some (gdSavedPath url), reqs1⟩
      else driveAux url rest reqs1
    else
      match cookieToken r.cookies with
      | none => ⟨none, reqs1⟩
      | some t =>
        let curl := url ++ "&confirm=" ++ t
        match rest with
        | [] => ⟨none, reqs1 ++ [curl]⟩
        | r2 :: rest2 =>
          let reqs2 := reqs1 ++ [curl]
          if r2.status = 200 then ⟨some (gdSavedPath url), reqs2⟩
          else driveAux url rest2 reqs2

/-- download_pdf_from_google_drive over a response trace. -/
def download_pdf_from_google_drive (url : String) (trace : List DResp) : DriveRun :=
  driveAux url trace []

/-! ## setup_logging (src/utils/logger.py)

logging.getLogger keeps a process-wide registry keyed by name; the
module always asks for its own fixed __name__.  A handler is a file
handler (some path) or a stream handler (none), each with a level.  The
function sets the level on every call but attaches the two handlers only
when the handler list is empty — i.e. on the first call for the name. -/

structure LogHandler where
  file : Option String
  level : Nat
deriving DecidableEq, Repr

structure PyLogger where
  level : Nat
  handlers : List LogHandler
deriving DecidableEq, Repr

/-- loggerName: __name__ of src/utils/logger.py as imported. -/
def loggerName : String := "utils.logger"

/-- getLogger: return the registered logger, creating a fresh
handlerless one (logging's default WARNING level = 30) on first use. -/
def getLogger (reg : List (String × PyLogger)) (name : String) :
    PyLogger × List (String × PyLogger) :=
  match lookupKey reg name with
  | some lg => (lg, reg)
  | none => (⟨30, []⟩, upsert reg name ⟨30, []⟩)

/-- setup_logging: look up the fixed logger, set its level, and attach a
FileHandler(log_file) and a StreamHandler — both at the given level —
only if no handlers are attached yet. -/
def setup_logging (reg : List (String × PyLogger)) (log_file : String) (level : Nat) :
    PyLogger × List (String × PyLogger) :=
  let p := getLogger reg loggerName
  let lg1 : PyLogger := ⟨level, p.1.handlers⟩
  let lg2 : PyLogger :=
    if lg1.handlers.isEmpty
    then ⟨lg1.level, [⟨some log_file, level⟩, ⟨none, level⟩]⟩
    else lg1
  (lg2, upsert p.2 loggerName lg2)

/-! ## Batch runners

Both runners fold over the target list carrying the in-memory results
dict, the last JSON snapshot written by save_results (initially the
loaded file itself, which equals the in-memory dict at start), and the
list of targets for which resolution work (network activity) was
started.  Link resolution and downloading go through oracles: a crawl or
fetch call either yields a value, reports failure, or raises — the
handlers installed in the source decide what each case does. -/

/-- FetchCall: one invocation of a download function as seen by its
caller — a saved file path, a None return, or a raised exception. -/
inductive FetchCall where
  | ok (path : String)
  | failed
  | raised
deriving DecidableEq, Repr

structure RunState (V : Type) where
  store : List (String × V)
  persisted : List (String × V)
  attempted : List String
deriving DecidableEq, Repr

namespace Nu

/-- NuRecord: the metadata dict persisted per index by nu main —
download_url holds the full candidate list and downloaded_filename the
basenames of the files actually written; a failed target stores None in
both (json.dump stringifies the integer index used as the key, so the
store is modelled with string keys throughout). -/
structure NuRecord where
  source_url : String
  download_url : Option (List Candidate)
  downloaded_filename : Option (List String)
deriving DecidableEq, Repr

/-- nuTargetUrl: the URL template of nu main. -/
def nuTargetUrl (index : Nat) : String :=
  "https://nuir.lib.nu.ac.th/dspace/handle/123456789/" ++ toString index

/-- crawl_and_download_pdf (crawl/nu/crawl_main.py lines 241-280):
crawl the page (crawl_webpage catches every exception and returns None,
so the oracle is an Option), extract candidate links with the real
extractor, download each candidate — a raise inside the per-link loop is
caught and skips to the next link — and return metadata when at least
one file was written, None otherwise. -/
def crawl_and_download_pdf (crawl : String → Option String) (fetch : String → FetchCall)
    (url : String) : Option (List Candidate × List String) :=
  match crawl url with
  | none => none
  | some md =>
    let links := extract_pdf_links_with_label_check md
    if links.isEmpty then none
    else
      let downloaded := links.filterMap (fun c =>
        match fetch c.download_url with
        | .ok p => some p
        | .failed => none
        | .raised => none)
      if downloaded.isEmpty then none
      else some (links, downloaded.map basename)

/-- mainStep (crawl/nu/crawl_main.py lines 287-312): skip when
str(index) is already a key of results — whatever the stored record
holds; otherwise crawl-and-download, store the metadata (or the all-None
failure record) under the index, and save_results immediately. -/
def mainStep (crawl : String → Option String) (fetch : String → FetchCall)
    (st : RunState NuRecord) (index : Nat) : RunState NuRecord :=
  let url := nuTargetUrl index
  if containsKey st.store (toString index) then st
  else
    let record : NuRecord :=
      match crawl_and_download_pdf crawl fetch url with
      | some md => ⟨url, some md.1, some md.2⟩
      | none => ⟨url, none, none⟩
    let store1 := upsert st.store (toString index) record
    ⟨store1, store1, st.attempted ++ [url]⟩

/-- main of crawl/nu/crawl_main.py, over an arbitrary index list and
loaded store (the source uses range(1, 1000) and the JSON file). -/
def main (crawl : String → Option String) (fetch : String → FetchCall)
    (indices : List Nat) (store0 : List (String × NuRecord)) : RunState NuRecord :=
  indices.foldl (mainStep crawl fetch) ⟨store0, store0, []⟩

end Nu

namespace Thaijo

/-- ThRecord: the per-url dict persisted by
fetch_and_download_pdfs_from_urls: download_link and the basename of the
saved file, either of which may be None. -/
structure ThRecord where
  download_link : Option String
  filename : Option String
deriving DecidableEq, Repr

/-- ResolveCall: one get_download_url_from_fetch invocation as seen by
the caller — a link, a None return, or a raise. -/
inductive ResolveCall where
  | link (u : String)
  | nofind
  | raised
deriving DecidableEq, Repr

/-- thaijoSkip (crawl/thaijo/fetch_pdf_urls.py line 220):
url in results and results[url]["download_link"] is not None. -/
def thaijoSkip (store : List (String × ThRecord)) (url : String) : Bool :=
  match lookupKey store url with
  | some r => r.download_link.isSome
  | none => false

/-- runStep (crawl/thaijo/fetch_pdf_urls.py lines 216-261): skip per
thaijoSkip; otherwise resolve and download inside one try block — for a
Google Drive url through the real pattern rewriter then the drive
downloader, else through the network-sniffing resolver then the plain
downloader.  pdf_download_link and saved_filepath start as None and keep
whatever was assigned before a raise, so a raise after resolution leaves
the link set and the filename None.  The record is stored and
save_results_to_file runs in every non-skipped iteration. -/
def runStep (resolveFetch : String → ResolveCall) (dlDrive dlFetch : String → FetchCall)
    (st : RunState ThRecord) (url : String) : RunState ThRecord :=
  if thaijoSkip st.store url then st
  else
    let record : ThRecord :=
      if occursIn "drive.google.com".data url.data then
        match get_download_url_from_google_drive url with
        | some link =>
          match dlDrive link with
          | .ok p => ⟨some link, some (basename p)⟩
          | .failed => ⟨some link, none⟩
          | .raised => ⟨some link, none⟩
        | none => ⟨none, none⟩
      else
        match resolveFetch url with
        | .link u =>
          match dlFetch u with
          | .ok p => ⟨some u, some (basename p)⟩
          | .failed => ⟨some u, none⟩
          | .raised => ⟨some u, none⟩
        | .nofind => ⟨none, none⟩
        | .raised => ⟨none, none⟩
    let store1 := upsert st.store url record
    ⟨store1, store1, st.attempted ++ [url]⟩

/-- fetch_and_download_pdfs_from_urls, folded over the url list with the
loaded store. -/
def fetch_and_download_pdfs_from_urls (resolveFetch : String → ResolveCall)
    (dlDrive dlFetch : String → FetchCall) (urls : List String)
    (store0 : List (String × ThRecord)) : RunState ThRecord :=
  urls.foldl (runStep resolveFetch dlDrive dlFetch) ⟨store0, store0, []⟩

end Thaijo

/-! ## Helper lemmas on the character-list scanners -/

theorem leadsWith_of_append : ∀ (p t : List Char), leadsWith p (p ++ t) = true := by
  intro p
  induction p with
  | nil => intro t; rfl
  | cons c cs ih => intro t; simp [leadsWith, ih]

theorem eq_append_of_leadsWith : ∀ (p l : List Char), leadsWith p l = true →
    l = p ++ l.drop p.length := by
  intro p
  induction p with
  | nil => intro l _; simp
  | cons c cs ih =>
    intro l h
    cases l with
    | nil => simp [leadsWith] at h
    | cons x xs =>
      simp only [leadsWith, Bool.and_eq_true, decide_eq_true_eq] at h
      obtain ⟨h1, h2⟩ := h
      subst h1
      simpa [List.drop] using ih xs h2

theorem occursIn_of_leadsWith (p l : List Char) (h : leadsWith p l = true) :
    occursIn p l = true := by
  cases l with
  | nil =>
    cases p with
    | nil => rfl
    | cons c cs => simp [leadsWith] at h
  | cons c cs => simp [occursIn, h]

theorem occursIn_cons_of (c : Char) (p cs : List Char) (h : occursIn p cs = true) :
    occursIn p (c :: cs) = true := by
  simp [occursIn, h]

theorem lastPdfEnd_ends_pdf : ∀ (l r : List Char), lastPdfEnd l = some r →
    ∃ a, r = a ++ pdfChars := by
  intro l
  induction l with
  | nil => intro r h; simp [lastPdfEnd] at h
  | cons c cs ih =>
    intro r h
    rw [lastPdfEnd] at h
    cases hrec : lastPdfEnd cs with
    | some r2 =>
      simp only [hrec, Option.some.injEq] at h
      obtain ⟨a, ha⟩ := ih r2 hrec
      exact ⟨c :: a, by rw [← h, ha]; simp⟩
    | none =>
      simp only [hrec] at h
      by_cases hl : leadsWith pdfChars (c :: cs) = true
      · simp only [if_pos hl, Option.some.injEq] at h
        exact ⟨[], by rw [← h]; rfl⟩
      · simp [if_neg hl] at h

theorem urlFromRun_shape (rn url : List Char) (h : urlFromRun rn = some url) :
    ∃ sch a, url = sch ++ a ++ pdfChars
      ∧ (sch = "http://".data ∨ sch = "https://".data) := by
  unfold urlFromRun dropScheme at h
  by_cases h1 : leadsWith "https://".data rn = true
  · simp only [if_pos h1] at h
    cases hp : lastPdfEnd (rn.drop 8) with
    | some u =>
      simp only [hp, Option.some.injEq] at h
      obtain ⟨a, ha⟩ := lastPdfEnd_ends_pdf _ u hp
      exact ⟨"https://".data, a, by rw [← h, ha, List.append_assoc], Or.inr rfl⟩
    | none => simp [hp] at h
  · simp only [if_neg h1] at h
    by_cases h2 : leadsWith "http://".data rn = true
    · simp only [if_pos h2] at h
      cases hp : lastPdfEnd (rn.drop 7) with
      | some u =>
        simp only [hp, Option.some.injEq] at h
        obtain ⟨a, ha⟩ := lastPdfEnd_ends_pdf _ u hp
        exact ⟨"http://".data, a, by rw [← h, ha, List.append_assoc], Or.inl rfl⟩
      | none => simp [hp] at h
    · simp [if_neg h2] at h

theorem matchPdfLinkAt_url_shape (l lab url rest : List Char)
    (h : matchPdfLinkAt l = some (lab, url, rest)) :
    ∃ sch a, url = sch ++ a ++ pdfChars
      ∧ (sch = "http://".data ∨ sch = "https://".data) := by
  simp only [matchPdfLinkAt] at h
  split at h
  · split at h
    · split at h
      · split at h
        · split at h
          case _ url2 hurl =>
            split at h
            · simp only [Option.some.injEq, Prod.mk.injEq] at h
              obtain ⟨-, h2, -⟩ := h
              exact h2 ▸ urlFromRun_shape _ _ hurl
            · exact absurd h (by simp)
          case _ => exact absurd h (by simp)
        · exact absurd h (by simp)
      · exact absurd h (by simp)
    · exact absurd h (by simp)
  · exact absurd h (by simp)

theorem scanPdfLinks_url_shape : ∀ (fuel : Nat) (l : List Char) (c : Candidate),
    c ∈ scanPdfLinks fuel l →
    ∃ sch a, c.download_url.data = sch ++ a ++ pdfChars
      ∧ (sch = "http://".data ∨ sch = "https://".data) := by
  intro fuel
  induction fuel with
  | zero => intro l c h; simp [scanPdfLinks] at h
  | succ fuel ih =>
    intro l c h
    cases l with
    | nil => simp [scanPdfLinks] at h
    | cons x xs =>
      rw [scanPdfLinks] at h
      cases hm : matchPdfLinkAt (x :: xs) with
      | some res =>
        obtain ⟨lab, url, rest⟩ := res
        simp only [hm, List.mem_cons] at h
        cases h with
        | inl hc =>
          obtain ⟨sch, a, ha, hsch⟩ := matchPdfLinkAt_url_shape _ _ _ _ hm
          exact ⟨sch, a, by rw [hc]; exact ha, hsch⟩
        | inr hc => exact ih rest c hc
      | none =>
        simp only [hm] at h
        exact ih xs c h

theorem takeWhile_all_idChar : ∀ (l g : List Char), l.takeWhile isIdChar = g →
    ∀ c ∈ g, isIdChar c = true := by
  intro l g h c hc
  exact List.mem_takeWhile_imp (h ▸ hc)

theorem searchIdAfter_sound (pat : List Char) : ∀ (l g : List Char),
    searchIdAfter pat l = some g →
    g ≠ [] ∧ (∀ c ∈ g, isIdChar c = true) ∧ occursIn (pat ++ g) l = true := by
  intro l
  induction l with
  | nil => intro g h; simp [searchIdAfter] at h
  | cons x xs ih =>
    intro g h
    rw [searchIdAfter] at h
    by_cases hl : leadsWith pat (x :: xs) = true
    · simp only [if_pos hl] at h
      cases htw : ((x :: xs).drop pat.length).takeWhile isIdChar with
      | nil =>
        simp only [htw] at h
        obtain ⟨hne, hall, hocc⟩ := ih g h
        exact ⟨hne, hall, occursIn_cons_of x _ xs hocc⟩
      | cons g0 gs =>
        simp only [htw, Option.some.injEq] at h
        subst h
        refine ⟨by simp, takeWhile_all_idChar _ _ htw, ?_⟩
        apply occursIn_of_leadsWith
        have hsplit := eq_append_of_leadsWith pat (x :: xs) hl
        have hsplit2 : (x :: xs).drop pat.length
            = (g0 :: gs) ++ ((x :: xs).drop pat.length).dropWhile isIdChar := by
          conv_lhs => rw [← List.takeWhile_append_dropWhile (p := isIdChar)
            (l := (x :: xs).drop pat.length)]
          rw [htw]
        rw [hsplit, hsplit2, ← List.append_assoc]
        exact leadsWith_of_append _ _
    · simp only [if_neg hl] at h
      obtain ⟨hne, hall, hocc⟩ := ih g h
      exact ⟨hne, hall, occursIn_cons_of x _ xs hocc⟩

theorem retryable_bound_step (j : Nat → ℚ) (hj : ∀ n, 0 ≤ j n) (i : Nat) (r : FetchRun)
    (len : Nat) (_hlen : r.sleeps.length = len)
    (hb : ∀ n, n < len → (2 : ℚ) ^ (i + 1 + n) ≤ r.sleeps.getD n 0) :
    ∀ n, n < len + 1 → (2 : ℚ) ^ (i + n) ≤ (retryCons (2 ^ i + j i) r).sleeps.getD n 0 := by
  intro n hn
  cases n with
  | zero =>
    rw [retryCons_sleeps, List.getD_cons_zero, Nat.add_zero]
    exact le_add_of_nonneg_right (hj i)
  | succ m =>
    rw [retryCons_sleeps, List.getD_cons_succ]
    have he : i + (m + 1) = i + 1 + m := by omega
    rw [he]
    exact hb m (by omega)

theorem Nu.fetchAux_retryable (j429 jOther : Nat → ℚ)
    (h429 : ∀ n, 0 ≤ j429 n) (hO : ∀ n, 0 ≤ jOther n) :
    ∀ (trace : List Attempt) (i : Nat) (files : List (Nat × Nat)),
      (∀ a ∈ trace, retryableAttempt a = true) →
      (Nu.fetchAux j429 jOther i trace files).result = none
      ∧ (Nu.fetchAux j429 jOther i trace files).attempts = i + trace.length
      ∧ (Nu.fetchAux j429 jOther i trace files).sleeps.length = trace.length
      ∧ ∀ n, n < trace.length →
          (2 : ℚ) ^ (i + n) ≤ (Nu.fetchAux j429 jOther i trace files).sleeps.getD n 0 := by
  intro trace
  induction trace with
  | nil =>
    intro i files _
    refine ⟨rfl, by simp [Nu.fetchAux], by simp [Nu.fetchAux], ?_⟩
    intro n hn
    simp at hn
  | cons a rest ih =>
    intro i files hr
    have hra : retryableAttempt a = true := hr a (List.mem_cons_self a rest)
    have hrest : ∀ x ∈ rest, retryableAttempt x = true :=
      fun x hx => hr x (List.mem_cons_of_mem a hx)
    obtain ⟨ih1, ih2, ih3, ih4⟩ := ih (i + 1) files hrest
    have hstep : ∀ jx : Nat → ℚ, (∀ n, 0 ≤ jx n) →
        ∀ r : FetchRun, r = retryCons (2 ^ i + jx i) (Nu.fetchAux j429 jOther (i + 1) rest files) →
        r.result = none ∧ r.attempts = i + (a :: rest).length
        ∧ r.sleeps.length = (a :: rest).length
        ∧ ∀ n, n < (a :: rest).length → (2 : ℚ) ^ (i + n) ≤ r.sleeps.getD n 0 := by
      intro jx hjx r hr
      subst hr
      refine ⟨by simpa using ih1, ?_, ?_, ?_⟩
      · simp only [retryCons_attempts, List.length_cons, ih2]; omega
      · simp only [retryCons_sleeps, List.length_cons, ih3]
      · simp only [List.length_cons]
        exact retryable_bound_step jx hjx i _ rest.length ih3 ih4
    cases a with
    | netErr =>
      exact hstep jOther hO _ (by rw [Nu.fetchAux])
    | resp s size ok =>
      simp only [retryableAttempt, retryableStatus, Bool.and_eq_true, bne_iff_ne,
        ne_eq, decide_eq_true_eq] at hra
      obtain ⟨⟨h200, h403⟩, h404⟩ := hra
      by_cases hs429 : s = 429
      · subst hs429
        exact hstep j429 h429 _ (by rw [Nu.fetchAux]; norm_num)
      · have hnot34 : ¬ (s = 403 ∨ s = 404) := by
          rintro (rfl | rfl) <;> simp_all
        exact hstep jOther hO _
          (by rw [Nu.fetchAux]; simp only [if_neg h200, if_neg hs429, if_neg hnot34])

theorem Nu.fetchAux_clean_files (j429 jOther : Nat → ℚ) :
    ∀ (trace : List Attempt) (i : Nat) (files : List (Nat × Nat)),
      (∀ a ∈ trace, cleanAttempt a = true) →
      (Nu.fetchAux j429 jOther i trace files).result = none →
      (Nu.fetchAux j429 jOther i trace files).files = files := by
  intro trace
  induction trace with
  | nil => intro i files _ _; rfl
  | cons a rest ih =>
    intro i files hc hres
    have hca : cleanAttempt a = true := hc a (List.mem_cons_self a rest)
    have hcrest : ∀ x ∈ rest, cleanAttempt x = true :=
      fun x hx => hc x (List.mem_cons_of_mem a hx)
    cases a with
    | netErr =>
      rw [Nu.fetchAux] at hres ⊢
      rw [retryCons_files]
      exact ih (i + 1) files hcrest (by simpa using hres)
    | resp s size ok =>
      by_cases h200 : s = 200
      · subst h200
        have hok : ok = true := by simpa [cleanAttempt] using hca
        subst hok
        by_cases hsz : size > 0
        · rw [Nu.fetchAux] at hres
          simp only [if_pos rfl, if_pos rfl, if_pos hsz] at hres
          exact absurd hres (by simp)
        · rw [Nu.fetchAux] at hres ⊢
          simp only [if_pos rfl, if_pos rfl, if_neg hsz] at hres ⊢
          exact ih (i + 1) files hcrest hres
      · by_cases hs429 : s = 429
        · subst hs429
          rw [Nu.fetchAux] at hres ⊢
          simp only [if_neg h200, if_pos rfl, retryCons_files, retryCons_result] at hres ⊢
          exact ih (i + 1) files hcrest hres
        · by_cases h34 : s = 403 ∨ s = 404
          · rw [Nu.fetchAux]
            simp [if_neg h200, if_neg hs429, if_pos h34]
          · rw [Nu.fetchAux] at hres ⊢
            simp only [if_neg h200, if_neg hs429, if_neg h34, retryCons_files,
              retryCons_result] at hres ⊢
            exact ih (i + 1) files hcrest hres

theorem driveAux_requests_extend (url : String) :
    ∀ (n : Nat) (trace : List DResp) (reqs : List String), trace.length ≤ n →
      ∃ ext, (driveAux url trace reqs).requests = reqs ++ ext := by
  intro n
  induction n with
  | zero =>
    intro trace reqs h
    have : trace = [] := List.eq_nil_of_length_eq_zero (Nat.le_zero.mp h)
    subst this
    exact ⟨[], by simp [driveAux]⟩
  | succ n ih =>
    intro trace reqs h
    cases trace with
    | nil => exact ⟨[], by simp [driveAux]⟩
    | cons r rest =>
      rw [driveAux]
      by_cases hcd : r.hasCD = true
      · simp only [if_pos hcd]
        by_cases h200 : r.status = 200
        · exact ⟨[url], by simp [if_pos h200]⟩
        · simp only [if_neg h200]
          have hlen : rest.length ≤ n := by
            simp only [List.length_cons] at h
            omega
          obtain ⟨ext, hext⟩ := ih rest (reqs ++ [url]) hlen
          exact ⟨[url] ++ ext, by rw [hext]; simp⟩
      · simp only [if_neg hcd]
        cases hck : cookieToken r.cookies with
        | none => exact ⟨[url], rfl⟩
        | some t =>
          cases rest with
          | nil => exact ⟨[url, url ++ "&confirm=" ++ t], by simp⟩
          | cons r2 rest2 =>
            by_cases h200 : r2.status = 200
            · exact ⟨[url, url ++ "&confirm=" ++ t], by simp [if_pos h200]⟩
            · simp only [if_neg h200]
              have hlen : rest2.length ≤ n := by
                simp only [List.length_cons] at h
                omega
              obtain ⟨ext, hext⟩ := ih rest2 (reqs ++ [url] ++ [url ++ "&confirm=" ++ t]) hlen
              refine ⟨[url, url ++ "&confirm=" ++ t] ++ ext, ?_⟩
              rw [hext]
              simp

theorem Nu.mainStep_persist (crawl : String → Option String) (fetch : String → FetchCall)
    (st : RunState Nu.NuRecord) (i : Nat) (h : st.persisted = st.store) :
    (Nu.mainStep crawl fetch st i).persisted = (Nu.mainStep crawl fetch st i).store := by
  unfold Nu.mainStep
  by_cases hc : containsKey st.store (toString i) = true
  · simpa [hc] using h
  · simp [hc]

theorem Nu.mainStep_mono (crawl : String → Option String) (fetch : String → FetchCall)
    (st : RunState Nu.NuRecord) (i : Nat) (k : String)
    (h : containsKey st.store k = true) :
    containsKey (Nu.mainStep crawl fetch st i).store k = true := by
  unfold Nu.mainStep
  by_cases hc : containsKey st.store (toString i) = true
  · simpa [hc] using h
  · simpa [hc] using containsKey_upsert_mono st.store (toString i) k _ h

theorem Nu.mainStep_self (crawl : String → Option String) (fetch : String → FetchCall)
    (st : RunState Nu.NuRecord) (i : Nat) :
    containsKey (Nu.mainStep crawl fetch st i).store (toString i) = true := by
  unfold Nu.mainStep
  by_cases hc : containsKey st.store (toString i) = true
  · simp [hc]
  · simpa [hc] using containsKey_upsert_self st.store (toString i) _

theorem Nu.main_persist_inv (crawl : String → Option String) (fetch : String → FetchCall) :
    ∀ (indices : List Nat) (st : RunState Nu.NuRecord), st.persisted = st.store →
      (indices.foldl (Nu.mainStep crawl fetch) st).persisted
        = (indices.foldl (Nu.mainStep crawl fetch) st).store := by
  intro indices
  induction indices with
  | nil => intro st h; exact h
  | cons i rest ih =>
    intro st h
    exact ih (Nu.mainStep crawl fetch st i) (Nu.mainStep_persist crawl fetch st i h)

theorem Nu.main_mono (crawl : String → Option String) (fetch : String → FetchCall) :
    ∀ (indices : List Nat) (st : RunState Nu.NuRecord) (k : String),
      containsKey st.store k = true →
      containsKey ((indices.foldl (Nu.mainStep crawl fetch) st)).store k = true := by
  intro indices
  induction indices with
  | nil => intro st k h; exact h
  | cons i rest ih =>
    intro st k h
    exact ih (Nu.mainStep crawl fetch st i) k (Nu.mainStep_mono crawl fetch st i k h)

theorem Nu.main_mem (crawl : String → Option String) (fetch : String → FetchCall) :
    ∀ (indices : List Nat) (st : RunState Nu.NuRecord) (i : Nat), i ∈ indices →
      containsKey ((indices.foldl (Nu.mainStep crawl fetch) st)).store (toString i) = true := by
  intro indices
  induction indices with
  | nil => intro st i h; simp at h
  | cons j rest ih =>
    intro st i h
    rcases List.mem_cons.mp h with rfl | hmem
    · exact Nu.main_mono crawl fetch rest _ (toString i) (Nu.mainStep_self crawl fetch st i)
    · exact ih (Nu.mainStep crawl fetch st j) i hmem

theorem Thaijo.runStep_persist (rf : String → Thaijo.ResolveCall) (dd df : String → FetchCall)
    (st : RunState Thaijo.ThRecord) (u : String) (h : st.persisted = st.store) :
    (Thaijo.runStep rf dd df st u).persisted = (Thaijo.runStep rf dd df st u).store := by
  unfold Thaijo.runStep
  by_cases hc : Thaijo.thaijoSkip st.store u = true
  · simpa [hc] using h
  · simp [hc]

theorem Thaijo.runStep_mono (rf : String → Thaijo.ResolveCall) (dd df : String → FetchCall)
    (st : RunState Thaijo.ThRecord) (u : String) (k : String)
    (h : containsKey st.store k = true) :
    containsKey (Thaijo.runStep rf dd df st u).store k = true := by
  unfold Thaijo.runStep
  by_cases hc : Thaijo.thaijoSkip st.store u = true
  · simpa [hc] using h
  · simpa [hc] using containsKey_upsert_mono st.store u k _ h

theorem Thaijo.runStep_self (rf : String → Thaijo.ResolveCall) (dd df : String → FetchCall)
    (st : RunState Thaijo.ThRecord) (u : String) :
    containsKey (Thaijo.runStep rf dd df st u).store u = true := by
  unfold Thaijo.runStep
  by_cases hc : Thaijo.thaijoSkip st.store u = true
  · have : containsKey st.store u = true := by
      unfold Thaijo.thaijoSkip at hc
      unfold containsKey
      cases hl : lookupKey st.store u with
      | some r => rfl
      | none => rw [hl] at hc; simp at hc
    simpa [hc] using this
  · simpa [hc] using containsKey_upsert_self st.store u _

theorem Thaijo.run_persist_inv (rf : String → Thaijo.ResolveCall) (dd df : String → FetchCall) :
    ∀ (urls : List String) (st : RunState Thaijo.ThRecord), st.persisted = st.store →
      (urls.foldl (Thaijo.runStep rf dd df) st).persisted
        = (urls.foldl (Thaijo.runStep rf dd df) st).store := by
  intro urls
  induction urls with
  | nil => intro st h; exact h
  | cons u rest ih =>
    intro st h
    exact ih (Thaijo.runStep rf dd df st u) (Thaijo.runStep_persist rf dd df st u h)

theorem Thaijo.run_mono (rf : String → Thaijo.ResolveCall) (dd df : String → FetchCall) :
    ∀ (urls : List String) (st : RunState Thaijo.ThRecord) (k : String),
      containsKey st.store k = true →
      containsKey ((urls.foldl (Thaijo.runStep rf dd df) st)).store k = true := by
  intro urls
  induction urls with
  | nil => intro st k h; exact h
  | cons u rest ih =>
    intro st k h
    exact ih (Thaijo.runStep rf dd df st u) k (Thaijo.runStep_mono rf dd df st u k h)

theorem Thaijo.run_mem (rf : String → Thaijo.ResolveCall) (dd df : String → FetchCall) :
    ∀ (urls : List String) (st : RunState Thaijo.ThRecord) (u : String), u ∈ urls →
      containsKey ((urls.foldl (Thaijo.runStep rf dd df) st)).store u = true := by
  intro urls
  induction urls with
  | nil => intro st u h; simp at h
  | cons v rest ih =>
    intro st u h
    rcases List.mem_cons.mp h with rfl | hmem
    · exact Thaijo.run_mono rf dd df rest _ u (Thaijo.runStep_self rf dd df st u)
    · exact ih (Thaijo.runStep rf dd df st v) u hmem

theorem setup_logging_other (reg : List (String × PyLogger)) (f : String) (l : Nat)
    (k : String) (hk : k ≠ loggerName) :
    lookupKey (setup_logging reg f l).2 k = lookupKey reg k := by
  unfold setup_logging getLogger
  cases hl : lookupKey reg loggerName with
  | some lg =>
    simp only [hl]
    rw [lookupKey_upsert_other _ _ _ _ hk]
  | none =>
    simp only [hl]
    rw [lookupKey_upsert_other _ _ _ _ hk, lookupKey_upsert_other _ _ _ _ hk]

theorem setup_logging_lookup (reg : List (String × PyLogger)) (f : String) (l : Nat) :
    lookupKey (setup_logging reg f l).2 loggerName = some (setup_logging reg f l).1 := by
  unfold setup_logging getLogger
  cases hl : lookupKey reg loggerName with
  | some lg => simp only [hl]; rw [lookupKey_upsert_self]
  | none => simp only [hl]; rw [lookupKey_upsert_self]

theorem setup_logging_handlers_ne (reg : List (String × PyLogger)) (f : String) (l : Nat) :
    (setup_logging reg f l).1.handlers ≠ [] := by
  unfold setup_logging getLogger
  cases hl : lookupKey reg loggerName with
  | none => simp [hl]
  | some lg =>
    simp only [hl]
    cases hh : lg.handlers with
    | nil => simp [hh]
    | cons h hs => simp [hh]

theorem setup_logging_of_found (reg : List (String × PyLogger)) (f : String) (l : Nat)
    (lg : PyLogger) (hl : lookupKey reg loggerName = some lg) (hne : lg.handlers ≠ []) :
    (setup_logging reg f l).1 = ⟨l, lg.handlers⟩ := by
  unfold setup_logging getLogger
  simp only [hl]
  cases hh : lg.handlers with
  | nil => exact absurd hh hne
  | cons h hs => simp [hh]

theorem setup_fold_inv :
    ∀ (calls : List (String × Nat)) (st : PyLogger × List (String × PyLogger)),
      lookupKey st.2 loggerName = some st.1 → st.1.handlers ≠ [] →
      (calls.foldl (fun st c => setup_logging st.2 c.1 c.2) st).1.handlers = st.1.handlers
      ∧ lookupKey (calls.foldl (fun st c => setup_logging st.2 c.1 c.2) st).2 loggerName
          = some (calls.foldl (fun st c => setup_logging st.2 c.1 c.2) st).1
      ∧ (calls.foldl (fun st c => setup_logging st.2 c.1 c.2) st).1.handlers ≠ [] := by
  intro calls
  induction calls with
  | nil => intro st h1 h2; exact ⟨rfl, h1, h2⟩
  | cons c rest ih =>
    intro st h1 h2
    have hstep : (setup_logging st.2 c.1 c.2).1 = ⟨c.2, st.1.handlers⟩ :=
      setup_logging_of_found st.2 c.1 c.2 st.1 h1 h2
    have hlk := setup_logging_lookup st.2 c.1 c.2
    have hne : (setup_logging st.2 c.1 c.2).1.handlers ≠ [] :=
      setup_logging_handlers_ne st.2 c.1 c.2
    obtain ⟨ihh, ihl, ihn⟩ := ih (setup_logging st.2 c.1 c.2) hlk hne
    refine ⟨?_, ihl, ihn⟩
    rw [List.foldl_cons] at *
    rw [ihh, hstep]

/-! ## Claim theorems -/

/-- C1 counterexample: the nu runner's store holds only a failure record
for index 1 (download_url and downloaded_filename are both None), yet a
run over target 1 attempts nothing — the failure record is not
re-attempted, contradicting the claim that only success-status records
are skipped. -/
theorem c1_skip_policy_cex :
    (Nu.main (fun _ => none) (fun _ => FetchCall.failed) [1]
        [("1", ⟨Nu.nuTargetUrl 1, none, none⟩)]).attempted = []
    ∧ lookupKey [("1", (⟨Nu.nuTargetUrl 1, none, none⟩ : Nu.NuRecord))] "1"
        = some ⟨Nu.nuTargetUrl 1, none, none⟩ := by
  constructor
  · decide
  · decide

/-- C1 amended: the nu runner skips a target exactly when the store
holds any record for its key — failure records included, so they are
never re-attempted; the thaijo runner skips exactly when the stored
record's download_link is set, so records of failed link resolution are
re-attempted but records where a link was found and the download failed
are skipped.  Neither default terminal set is exactly \x7bsuccess\x7d. -/
theorem c1_skip_policy_amended :
    (∀ (crawl : String → Option String) (fetch : String → FetchCall)
        (store : List (String × Nu.NuRecord)) (i : Nat),
      (Nu.main crawl fetch [i] store).attempted = []
        ↔ containsKey store (toString i) = true)
    ∧ (∀ (rf : String → Thaijo.ResolveCall) (dd df : String → FetchCall)
        (store : List (String × Thaijo.ThRecord)) (u : String),
      (Thaijo.fetch_and_download_pdfs_from_urls rf dd df [u] store).attempted = []
        ↔ Thaijo.thaijoSkip store u = true)
    ∧ (∀ (store : List (String × Thaijo.ThRecord)) (u : String) (r : Thaijo.ThRecord),
        lookupKey store u = some r → Thaijo.thaijoSkip store u = r.download_link.isSome)
    ∧ (∀ (store : List (String × Thaijo.ThRecord)) (u : String),
        lookupKey store u = none → Thaijo.thaijoSkip store u = false) := by
  refine ⟨?_, ?_, ?_, ?_⟩
  · intro crawl fetch store i
    by_cases hc : containsKey store (toString i) = true
    · simp [Nu.main, Nu.mainStep, hc]
    · simp [Nu.main, Nu.mainStep, hc]
  · intro rf dd df store u
    by_cases hc : Thaijo.thaijoSkip store u = true
    · simp [Thaijo.fetch_and_download_pdfs_from_urls, Thaijo.runStep, hc]
    · simp [Thaijo.fetch_and_download_pdfs_from_urls, Thaijo.runStep, hc]
  · intro store u r h
    unfold Thaijo.thaijoSkip
    rw [h]
  · intro store u h
    unfold Thaijo.thaijoSkip
    rw [h]

/-- C1 witness: a thaijo record with a link but no saved file (a failed
download) is treated as skippable by the skip predicate. -/
theorem c1_skip_policy_amended_wit :
    Thaijo.thaijoSkip [("u", (⟨some "l", none⟩ : Thaijo.ThRecord))] "u" = true := by
  have h := c1_skip_policy_amended
  have h2 := h.2.2.1 [("u", (⟨some "l", none⟩ : Thaijo.ThRecord))] "u"
    ⟨some "l", none⟩ (by decide)
  simpa using h2

/-- C2: in both runners the persisted snapshot equals the in-memory
mapping after the fold over any target list (save_results runs after
every non-skipped target and skipped targets change nothing), and every
key present in the loaded store is still present afterwards — a run only
adds or updates entries. -/
theorem c2_persist_after_each_target :
    (∀ (crawl : String → Option String) (fetch : String → FetchCall)
        (indices : List Nat) (store0 : List (String × Nu.NuRecord)),
      (Nu.main crawl fetch indices store0).persisted
          = (Nu.main crawl fetch indices store0).store
      ∧ ∀ k, containsKey store0 k = true →
          containsKey (Nu.main crawl fetch indices store0).store k = true)
    ∧ (∀ (rf : String → Thaijo.ResolveCall) (dd df : String → FetchCall)
        (urls : List String) (store0 : List (String × Thaijo.ThRecord)),
      (Thaijo.fetch_and_download_pdfs_from_urls rf dd df urls store0).persisted
          = (Thaijo.fetch_and_download_pdfs_from_urls rf dd df urls store0).store
      ∧ ∀ k, containsKey store0 k = true →
          containsKey (Thaijo.fetch_and_download_pdfs_from_urls rf dd df urls store0).store k
            = true) := by
  constructor
  · intro crawl fetch indices store0
    exact ⟨Nu.main_persist_inv crawl fetch indices ⟨store0, store0, []⟩ rfl,
      fun k hk => Nu.main_mono crawl fetch indices ⟨store0, store0, []⟩ k hk⟩
  · intro rf dd df urls store0
    exact ⟨Thaijo.run_persist_inv rf dd df urls ⟨store0, store0, []⟩ rfl,
      fun k hk => Thaijo.run_mono rf dd df urls ⟨store0, store0, []⟩ k hk⟩

/-- C2 witness at a concrete two-target run over a one-record store. -/
theorem c2_persist_after_each_target_wit :
    (Nu.main (fun _ => none) (fun _ => FetchCall.failed) [1, 2]
        [("9", ⟨"u", none, none⟩)]).persisted
      = (Nu.main (fun _ => none) (fun _ => FetchCall.failed) [1, 2]
        [("9", ⟨"u", none, none⟩)]).store
    ∧ containsKey (Nu.main (fun _ => none) (fun _ => FetchCall.failed) [1, 2]
        [("9", ⟨"u", none, none⟩)]).store "9" = true := by
  have h := c2_persist_after_each_target
  have h1 := h.1 (fun _ => none) (fun _ => FetchCall.failed) [1, 2] [("9", ⟨"u", none, none⟩)]
  exact ⟨h1.1, h1.2 "9" (by decide)⟩

/-- C3: when every attempt observes a retryable outcome (429, 5xx,
another unexpected status, or a transport error), the nu fetcher makes
exactly max_retries attempts, returns the failure value None (the model
is a total function — every exception arm is caught in the source), and
the sleep before the Nth retry, at index N-1, is at least 2^(N-1)
seconds once the nonnegative jitter is discarded. -/
theorem c3_retry_backoff_exhaustion (j429 jOther : Nat → ℚ) (m : Nat) (trace : List Attempt)
    (hlen : trace.length = m)
    (hr : ∀ a ∈ trace, retryableAttempt a = true)
    (h429 : ∀ n, 0 ≤ j429 n) (hO : ∀ n, 0 ≤ jOther n) :
    (Nu.download_pdf_with_retries j429 jOther m trace).result = none
    ∧ (Nu.download_pdf_with_retries j429 jOther m trace).attempts = m
    ∧ (Nu.download_pdf_with_retries j429 jOther m trace).sleeps.length = m
    ∧ ∀ n, n < m →
        (2 : ℚ) ^ n ≤ (Nu.download_pdf_with_retries j429 jOther m trace).sleeps.getD n 0 := by
  have htake : trace.take m = trace := by rw [← hlen]; exact List.take_length trace
  unfold Nu.download_pdf_with_retries
  rw [htake]
  obtain ⟨h1, h2, h3, h4⟩ := Nu.fetchAux_retryable j429 jOther h429 hO trace 0 [] hr
  refine ⟨h1, by rw [h2, hlen]; omega, by rw [h3, hlen], ?_⟩
  intro n hn
  have := h4 n (by omega)
  simpa using this

/-- C3 witness: a 429 then a transport error exhaust a two-attempt
budget with a None result. -/
theorem c3_retry_backoff_exhaustion_wit :
    (Nu.download_pdf_with_retries (fun _ => 1) (fun _ => 1) 2
        [Attempt.resp 429 0 true, Attempt.netErr]).result = none
    ∧ (Nu.download_pdf_with_retries (fun _ => 1) (fun _ => 1) 2
        [Attempt.resp 429 0 true, Attempt.netErr]).attempts = 2 := by
  have h := c3_retry_backoff_exhaustion (fun _ => 1) (fun _ => 1) 2
    [Attempt.resp 429 0 true, Attempt.netErr] rfl (by decide)
    (fun n => by norm_num) (fun n => by norm_num)
  exact ⟨h.1, h.2.1⟩

/-- C4: a 403 or 404 response makes both fetchers return None after
exactly that one attempt, with no sleep and no file written. -/
theorem c4_permanent_failure_short_circuit (j429 jOther : Nat → ℚ) (m s size : Nat)
    (ok : Bool) (rest : List Attempt) (hm : 1 ≤ m) (hs : s = 403 ∨ s = 404) :
    Nu.download_pdf_with_retries j429 jOther m (Attempt.resp s size ok :: rest)
      = ⟨none, 1, [], []⟩
    ∧ Thaijo.download_pdf_with_retries j429 jOther m (Attempt.resp s size ok :: rest)
      = ⟨none, 1, [], []⟩ := by
  obtain ⟨k, rfl⟩ : ∃ k, m = k + 1 := ⟨m - 1, by omega⟩
  have h200 : ¬ s = 200 := by rcases hs with rfl | rfl <;> norm_num
  have h429x : ¬ s = 429 := by rcases hs with rfl | rfl <;> norm_num
  constructor
  · unfold Nu.download_pdf_with_retries
    rw [List.take_succ_cons, Nu.fetchAux]
    simp [if_neg h200, if_neg h429x, if_pos hs]
  · unfold Thaijo.download_pdf_with_retries
    rw [List.take_succ_cons, Thaijo.fetchAux]
    simp [if_neg h200, if_neg h429x]

/-- C4 witness at a concrete 404 trace with the default budget of 5. -/
theorem c4_permanent_failure_short_circuit_wit :
    Nu.download_pdf_with_retries (fun _ => 1) (fun _ => 1) 5 [Attempt.resp 404 0 true]
      = ⟨none, 1, [], []⟩
    ∧ Thaijo.download_pdf_with_retries (fun _ => 1) (fun _ => 1) 5 [Attempt.resp 404 0 true]
      = ⟨none, 1, [], []⟩ :=
  c4_permanent_failure_short_circuit (fun _ => 1) (fun _ => 1) 5 404 0 true []
    (by norm_num) (Or.inr rfl)

/-- C5 counterexample: a 200 response whose stream raises after 7 bytes
were written, followed by a 404, makes the nu fetcher return None while
the truncated 7-byte file written by attempt 0 is still on disk — a
partial file survives the failed fetch. -/
theorem c5_partial_file_cex :
    (Nu.download_pdf_with_retries (fun _ => 1) (fun _ => 1) 5
        [Attempt.resp 200 7 false, Attempt.resp 404 0 true]).result = none
    ∧ (Nu.download_pdf_with_retries (fun _ => 1) (fun _ => 1) 5
        [Attempt.resp 200 7 false, Attempt.resp 404 0 true]).files = [(0, 7)] := by
  constructor
  · rfl
  · rfl

/-- C5 amended: the nu fetcher's no-partial-file guarantee holds only
for invocations in which no 200 body transfer raised mid-stream: then a
None result leaves no file behind (a completed zero-byte write is
deleted and retried).  A mid-stream error leaves the truncated file.
The thaijo fetcher never verifies size: a 200 response whose body
streams completely is returned as success even at size 0, with the
zero-byte file kept. -/
theorem c5_partial_file_amended :
    (∀ (j429 jOther : Nat → ℚ) (m : Nat) (trace : List Attempt),
      (∀ a ∈ trace, cleanAttempt a = true) →
      (Nu.download_pdf_with_retries j429 jOther m trace).result = none →
      (Nu.download_pdf_with_retries j429 jOther m trace).files = [])
    ∧ (∀ (j429 jOther : Nat → ℚ) (m size : Nat) (rest : List Attempt), 1 ≤ m →
      (Thaijo.download_pdf_with_retries j429 jOther m
          (Attempt.resp 200 size true :: rest)).result = some 0
      ∧ (Thaijo.download_pdf_with_retries j429 jOther m
          (Attempt.resp 200 size true :: rest)).files = [(0, size)]) := by
  constructor
  · intro j429 jOther m trace hc hres
    unfold Nu.download_pdf_with_retries at hres ⊢
    exact Nu.fetchAux_clean_files j429 jOther (trace.take m) 0 []
      (fun a ha => hc a (List.take_subset m trace ha)) hres
  · intro j429 jOther m size rest hm
    obtain ⟨k, rfl⟩ : ∃ k, m = k + 1 := ⟨m - 1, by omega⟩
    unfold Thaijo.download_pdf_with_retries
    rw [List.take_succ_cons, Thaijo.fetchAux]
    norm_num

/-- C5 witness: a clean all-404 trace leaves no files, and a zero-byte
200 is accepted by the thaijo fetcher with the empty file kept. -/
theorem c5_partial_file_amended_wit :
    (Nu.download_pdf_with_retries (fun _ => 1) (fun _ => 1) 1
        [Attempt.resp 404 0 true]).files = []
    ∧ (Thaijo.download_pdf_with_retries (fun _ => 1) (fun _ => 1) 5
        [Attempt.resp 200 0 true]).result = some 0
    ∧ (Thaijo.download_pdf_with_retries (fun _ => 1) (fun _ => 1) 5
        [Attempt.resp 200 0 true]).files = [(0, 0)] := by
  have h := c5_partial_file_amended
  have h1 := h.1 (fun _ => 1) (fun _ => 1) 1 [Attempt.resp 404 0 true] (by decide) (by rfl)
  have h2 := h.2 (fun _ => 1) (fun _ => 1) 5 0 [] (by norm_num)
  exact ⟨h1, h2.1, h2.2⟩

/-- C6: load_existing_results returns the empty mapping when the
backing file is absent, and propagates the parse failure unchanged when
the file exists but json.load rejects its content — no handler swallows
the error. -/
theorem c6_store_load_semantics (M : Type) (parse : String → Except String M)
    (emptyMap : M) :
    load_existing_results M parse emptyMap none = Except.ok emptyMap
    ∧ ∀ (s e : String), parse s = Except.error e →
        load_existing_results M parse emptyMap (some s) = Except.error e := by
  refine ⟨rfl, ?_⟩
  intro s e h
  simpa [load_existing_results] using h

/-- C6 witness with a parse function that always rejects. -/
theorem c6_store_load_semantics_wit :
    load_existing_results Nat (fun _ => Except.error "corrupt") 0 none = Except.ok 0
    ∧ load_existing_results Nat (fun _ => Except.error "corrupt") 0 (some "x")
        = Except.error "corrupt" := by
  have h := c6_store_load_semantics Nat (fun _ => Except.error "corrupt") 0
  exact ⟨h.1, h.2 "x" "corrupt" rfl⟩

/-- C7: both runners always run to completion and leave a record for
every target of the list, whatever the oracles do; and when resolution
fails by exception on a non-skipped target, the runner stores the
failure record and persists it before moving on — in the nu runner the
crawl wrapper catches every exception and surfaces None, in the thaijo
runner the per-target try block catches the raise directly. -/
theorem c7_fault_isolation :
    (∀ (crawl : String → Option String) (fetch : String → FetchCall)
        (indices : List Nat) (store0 : List (String × Nu.NuRecord)) (i : Nat),
      i ∈ indices →
      containsKey (Nu.main crawl fetch indices store0).store (toString i) = true)
    ∧ (∀ (rf : String → Thaijo.ResolveCall) (dd df : String → FetchCall)
        (urls : List String) (store0 : List (String × Thaijo.ThRecord)) (u : String),
      u ∈ urls →
      containsKey (Thaijo.fetch_and_download_pdfs_from_urls rf dd df urls store0).store u
        = true)
    ∧ (∀ (crawl : String → Option String) (fetch : String → FetchCall)
        (store0 : List (String × Nu.NuRecord)) (i : Nat),
      containsKey store0 (toString i) = false → crawl (Nu.nuTargetUrl i) = none →
      (Nu.main crawl fetch [i] store0).store
          = upsert store0 (toString i) ⟨Nu.nuTargetUrl i, none, none⟩
      ∧ (Nu.main crawl fetch [i] store0).persisted
          = (Nu.main crawl fetch [i] store0).store)
    ∧ (∀ (rf : String → Thaijo.ResolveCall) (dd df : String → FetchCall)
        (store0 : List (String × Thaijo.ThRecord)) (u : String),
      Thaijo.thaijoSkip store0 u = false → rf u = Thaijo.ResolveCall.raised →
      occursIn "drive.google.com".data u.data = false →
      (Thaijo.fetch_and_download_pdfs_from_urls rf dd df [u] store0).store
          = upsert store0 u ⟨none, none⟩) := by
  refine ⟨?_, ?_, ?_, ?_⟩
  · intro crawl fetch indices store0 i hi
    exact Nu.main_mem crawl fetch indices ⟨store0, store0, []⟩ i hi
  · intro rf dd df urls store0 u hu
    exact Thaijo.run_mem rf dd df urls ⟨store0, store0, []⟩ u hu
  · intro crawl fetch store0 i hc hcrawl
    constructor
    · simp [Nu.main, Nu.mainStep, hc, Nu.crawl_and_download_pdf, hcrawl]
    · simp [Nu.main, Nu.mainStep, hc]
  · intro rf dd df store0 u hskip hrf hdrive
    simp [Thaijo.fetch_and_download_pdfs_from_urls, Thaijo.runStep, hskip, hdrive, hrf]

/-- C7 witness: a batch over one target with a crawl that finds nothing
records that target, and a thaijo resolution raise stores the all-None
failure record. -/
theorem c7_fault_isolation_wit :
    containsKey (Nu.main (fun _ => none) (fun _ => FetchCall.failed) [3] []).store
        (toString 3) = true
    ∧ (Thaijo.fetch_and_download_pdfs_from_urls (fun _ => Thaijo.ResolveCall.raised)
        (fun _ => FetchCall.failed) (fun _ => FetchCall.failed) ["http://t/page"] []).store
      = upsert [] "http://t/page" ⟨none, none⟩ := by
  have h := c7_fault_isolation
  refine ⟨?_, ?_⟩
  · exact h.1 (fun _ => none) (fun _ => FetchCall.failed) [3] [] 3 (by decide)
  · exact h.2.2.2 (fun _ => Thaijo.ResolveCall.raised) (fun _ => FetchCall.failed)
      (fun _ => FetchCall.failed) [] "http://t/page" (by decide) rfl (by decide)

/-- C8 counterexample: on the input [a.pdf](https://x/a.pdf?q=1) the
occurrence's url https://x/a.pdf?q=1 does not end in .pdf, so the
claim's characterisation returns nothing, yet the extractor returns one
candidate whose captured download_url is the truncated prefix
https://x/a.pdf. -/
theorem c8_link_scan_cex :
    extract_pdf_links_with_label_check "[a.pdf](https://x/a.pdf?q=1)"
      = [⟨"a.pdf", "https://x/a.pdf"⟩]
    ∧ specMarkdownPdfOccurrences "[a.pdf](https://x/a.pdf?q=1)" = [] := by
  constructor
  · decide
  · decide

/-- C8 amended: on the literal input the extractor returns exactly the
single candidate the claim demands; in general every returned candidate
has a download_url that starts with http:// or https:// and ends in
.pdf, but it is the longest such prefix of the occurrence's url — an
occurrence whose url merely contains .pdf (for example before a query
string) still yields a candidate, with the tail up to the closing
parenthesis discarded. -/
theorem c8_link_scan_amended :
    extract_pdf_links_with_label_check "* [doc.pdf](https://x.test/doc.pdf) trailing"
      = [⟨"doc.pdf", "https://x.test/doc.pdf"⟩]
    ∧ ∀ (md : String) (c : Candidate), c ∈ extract_pdf_links_with_label_check md →
        ∃ sch a, c.download_url.data = sch ++ a ++ pdfChars
          ∧ (sch = "http://".data ∨ sch = "https://".data) := by
  constructor
  · decide
  · intro md c hc
    exact scanPdfLinks_url_shape _ _ c hc

/-- C8 witness: the soundness half applied to a concrete match. -/
theorem c8_link_scan_amended_wit :
    ∃ sch a, ("http://a/b.pdf" : String).data = sch ++ a ++ pdfChars
      ∧ (sch = "http://".data ∨ sch = "https://".data) := by
  have h := c8_link_scan_amended
  have hmem : (⟨"q.pdf", "http://a/b.pdf"⟩ : Candidate)
      ∈ extract_pdf_links_with_label_check "[q.pdf](http://a/b.pdf)" := by decide
  simpa using h.2 "[q.pdf](http://a/b.pdf)" ⟨"q.pdf", "http://a/b.pdf"⟩ hmem

/-- C9: the Drive resolver returns the direct-download url built from
the id captured by the /d/ pattern (or, failing that, the id= pattern —
the captured id is a nonempty run of id characters occurring right after
the pattern in the url) and None when neither matches; and in the
downloader, a first response without Content-Disposition either leads to
a re-issued request at url&confirm=<token> when a download_warning
cookie is present, or to an immediate None after that single request. -/
theorem c9_drive_rewrite_confirm :
    (∀ (url : String) (g : List Char), searchIdAfter "/d/".data url.data = some g →
        get_download_url_from_google_drive url = some (gdBase ++ String.mk g)
        ∧ occursIn ("/d/".data ++ g) url.data = true ∧ g ≠ []
        ∧ ∀ c ∈ g, isIdChar c = true)
    ∧ (∀ (url : String) (g : List Char), searchIdAfter "/d/".data url.data = none →
        searchIdAfter "id=".data url.data = some g →
        get_download_url_from_google_drive url = some (gdBase ++ String.mk g)
        ∧ occursIn ("id=".data ++ g) url.data = true ∧ g ≠ []
        ∧ ∀ c ∈ g, isIdChar c = true)
    ∧ (∀ (url : String), searchIdAfter "/d/".data url.data = none →
        searchIdAfter "id=".data url.data = none →
        get_download_url_from_google_drive url = none)
    ∧ (∀ (url t : String) (r : DResp) (rest : List DResp),
        r.hasCD = false → cookieToken r.cookies = some t →
        ∃ ext, (download_pdf_from_google_drive url (r :: rest)).requests
          = url :: (url ++ "&confirm=" ++ t) :: ext)
    ∧ (∀ (url : String) (r : DResp) (rest : List DResp),
        r.hasCD = false → cookieToken r.cookies = none →
        download_pdf_from_google_drive url (r :: rest) = ⟨none, [url]⟩) := by
  refine ⟨?_, ?_, ?_, ?_, ?_⟩
  · intro url g h
    obtain ⟨hne, hall, hocc⟩ := searchIdAfter_sound "/d/".data url.data g h
    refine ⟨?_, hocc, hne, hall⟩
    unfold get_download_url_from_google_drive
    simp [h]
  · intro url g h1 h2
    obtain ⟨hne, hall, hocc⟩ := searchIdAfter_sound "id=".data url.data g h2
    refine ⟨?_, hocc, hne, hall⟩
    unfold get_download_url_from_google_drive
    simp [h1, h2]
  · intro url h1 h2
    unfold get_download_url_from_google_drive
    simp [h1, h2]
  · intro url t r rest hcd hck
    unfold download_pdf_from_google_drive
    rw [driveAux]
    simp only [hcd, Bool.false_eq_true, if_false, hck]
    cases rest with
    | nil => exact ⟨[], by simp⟩
    | cons r2 rest2 =>
      by_cases h200 : r2.status = 200
      · exact ⟨[], by simp [if_pos h200]⟩
      · simp only [if_neg h200]
        obtain ⟨ext, hext⟩ :=
          driveAux_requests_extend url rest2.length rest2
            ([] ++ [url] ++ [url ++ "&confirm=" ++ t]) (le_refl _)
        exact ⟨ext, by rw [hext]; simp⟩
  · intro url r rest hcd hck
    unfold download_pdf_from_google_drive
    rw [driveAux]
    simp [hcd, hck]

/-- C9 witness: a /d/ share link rewrites to the uc?export=download
form; a confirmation-less cookie-less response yields None after one
request; a download_warning cookie triggers the confirm re-request. -/
theorem c9_drive_rewrite_confirm_wit :
    get_download_url_from_google_drive "https://drive.google.com/file/d/abc_1/view"
      = some "https://drive.google.com/uc?export=download&id=abc_1"
    ∧ download_pdf_from_google_drive "u" [⟨200, false, []⟩] = ⟨none, ["u"]⟩
    ∧ ∃ ext, (download_pdf_from_google_drive "u"
        [⟨200, false, [("download_warning_a", "tok")]⟩]).requests
      = "u" :: "u&confirm=tok" :: ext := by
  have h := c9_drive_rewrite_confirm
  refine ⟨?_, ?_, ?_⟩
  · have h1 := h.1 "https://drive.google.com/file/d/abc_1/view" "abc_1".data (by decide)
    exact h1.1.trans (by decide)
  · exact h.2.2.2.2 "u" ⟨200, false, []⟩ [] rfl rfl
  · obtain ⟨ext, hext⟩ := h.2.2.2.1 "u" "tok" ⟨200, false, [("download_warning_a", "tok")]⟩ []
      rfl (by decide)
    have hs : ("u" ++ "&confirm=" ++ "tok" : String) = "u&confirm=tok" := by decide
    exact ⟨ext, by rw [hext, hs]⟩

/-- C10: setup_logging touches only the one fixed registry entry, so
every call deals with the identical logger; a second call — whatever
log_file it passes — leaves the handlers installed by the first call
unchanged and only overwrites the level; and across any sequence of
further calls the handlers remain the two attached by the first call,
with the file handler bound to the first call's log_file. -/
theorem c10_logging_idempotent (reg : List (String × PyLogger)) (f1 f2 : String)
    (l1 l2 : Nat) :
    (∀ k, k ≠ loggerName → lookupKey (setup_logging reg f1 l1).2 k = lookupKey reg k)
    ∧ (setup_logging (setup_logging reg f1 l1).2 f2 l2).1.handlers
        = (setup_logging reg f1 l1).1.handlers
    ∧ (setup_logging (setup_logging reg f1 l1).2 f2 l2).1.level = l2
    ∧ (∀ calls : List (String × Nat),
        ((calls.foldl (fun st c => setup_logging st.2 c.1 c.2)
            (setup_logging [] f1 l1)).1).handlers
          = [⟨some f1, l1⟩, ⟨none, l1⟩]) := by
  have hfound := setup_logging_of_found (setup_logging reg f1 l1).2 f2 l2
    (setup_logging reg f1 l1).1 (setup_logging_lookup reg f1 l1)
    (setup_logging_handlers_ne reg f1 l1)
  refine ⟨fun k hk => setup_logging_other reg f1 l1 k hk, ?_, ?_, ?_⟩
  · rw [hfound]
  · rw [hfound]
  · intro calls
    have hinv := setup_fold_inv calls (setup_logging [] f1 l1)
      (setup_logging_lookup [] f1 l1) (setup_logging_handlers_ne [] f1 l1)
    rw [hinv.1]
    simp [setup_logging, getLogger, lookupKey]

/-- C10 witness at two concrete calls plus one folded later call. -/
theorem c10_logging_idempotent_wit :
    lookupKey (setup_logging [] "a.log" 10).2 "other" = none
    ∧ (setup_logging (setup_logging [] "a.log" 10).2 "b.log" 20).1.handlers
        = (setup_logging [] "a.log" 10).1.handlers
    ∧ (setup_logging (setup_logging [] "a.log" 10).2 "b.log" 20).1.level = 20
    ∧ ([("c.log", 30)].foldl (fun st c => setup_logging st.2 c.1 c.2)
          (setup_logging [] "a.log" 10)).1.handlers
        = [⟨some "a.log", 10⟩, ⟨none, 10⟩] := by
  have h := c10_logging_idempotent [] "a.log" "b.log" 10 20
  refine ⟨?_, h.2.1, h.2.2.1, h.2.2.2 [("c.log", 30)]⟩
  have h1 := h.1 "other" (by decide)
  simpa using h1

end Spec2Proof
